import Mathlib

/-!
Verification development for the car-wash / service-station simulator
(`ServiceStation.cpp`).  The C++ program is shallowly embedded:

* `Semaphore` models the custom counting semaphore (lines 35-65): an
  integer permit count `slots`, a blocking `acquire` (modelled as an
  `Option`: `none` means the caller is still blocked in `cv.wait`, whose
  predicate `slots > 0` is re-checked on every wakeup; a completed
  acquire exists exactly when `slots > 0`), a total `release`, and the
  snapshot `availablePermits`.
* `SharedQueue` models the bounded blocking queue (lines 68-125) for a
  single operation running to completion; each semaphore action is
  recorded in a ghost `trace` so that the order of the five steps of
  `addCar`/`removeCar` is observable, and each `safe_print` inside the
  queue is recorded as an abstract `Event`.
* `Sys` is a fine-grained interleaving semantics for the whole program:
  every thread (arrival producer, pump worker) is decomposed into the
  atomic semaphore operations it performs, in source order, and a
  scheduler picks any enabled thread at each step.  Ghost fields
  (`pushed`, `popped`, `bayAcquires`, `bayReleases`, `events`) record
  the observable history.
-/

/-- Car record (`struct Car`, lines 27-32): display name and numeric id. -/
structure Car where
  carName : String
  carId : Int
deriving DecidableEq, Repr

/-- Observable events: one per `safe_print` call site of the program
(arrival line 157, queued line 88, dequeued line 109, service begin
line 139, service finish lines 144-145, interruption line 151). -/
inductive Event where
  | arrived (name : String)
  | queued (name : String) (size : Nat)
  | dequeued (pumpId : Int) (name : String) (size : Nat)
  | serviceStarted (pumpId : Int) (name : String)
  | serviceFinished (pumpId : Int) (name : String)
  | bayFreed (pumpId : Int)
  | interrupted (pumpId : Int)
deriving DecidableEq, Repr

/-- Custom semaphore (lines 35-65): the only mutable datum is the permit
count `slots` (an `int` in the source). -/
structure Semaphore where
  slots : Int
deriving DecidableEq, Repr

/-- Constructor (lines 42-46): `throw std::invalid_argument` iff
`initialSlots < 0`. -/
def Semaphore.new (initialSlots : Int) : Except String Semaphore :=
  if initialSlots < 0 then Except.error "Initial slots cannot be negative"
  else Except.ok { slots := initialSlots }

/-- `acquire` (lines 48-53): `cv.wait(lock, [this]{ return slots > 0; })`
then `slots--`.  A completed acquire exists exactly when `slots > 0`;
`none` models the caller still blocked (the wait predicate is re-checked
after every wakeup, so the decrement only ever happens from a positive
count). -/
def Semaphore.acquire (s : Semaphore) : Option Semaphore :=
  if 0 < s.slots then some { slots := s.slots - 1 } else none

/-- `release` (lines 55-59): `slots++` then `notify_one`. -/
def Semaphore.release (s : Semaphore) : Semaphore :=
  { slots := s.slots + 1 }

/-- `availablePermits` (lines 61-64): lock, read `slots`, unlock.  The
returned pair is (read value, semaphore state after the call). -/
def Semaphore.availablePermits (s : Semaphore) : Int × Semaphore :=
  (s.slots, s)

/-- A single semaphore client action, for reasoning about arbitrary
interleaved `acquire`/`release` histories. -/
inductive SemOp where
  | acq
  | rel
deriving DecidableEq, Repr

/-- Run a sequence of semaphore operations to completion; `none` means
some acquire in the sequence blocked (and hence never completed). -/
def Semaphore.run : Semaphore → List SemOp → Option Semaphore
  | s, [] => some s
  | s, SemOp.acq :: ops =>
    match s.acquire with
    | none => none
    | some s' => Semaphore.run s' ops
  | s, SemOp.rel :: ops => Semaphore.run s.release ops

/-- Atomic semaphore actions performed by the queue operations, used as
a ghost trace to check the order of steps inside `addCar`/`removeCar`. -/
inductive QAction where
  | acquireEmptySlot
  | acquireFullSlot
  | acquireMutex
  | pushAndPrint
  | popAndPrint
  | releaseMutex
  | releaseEmptySlot
  | releaseFullSlot
deriving DecidableEq, Repr

/-- Shared queue (lines 68-125): the FIFO container `queue` plus the
three member semaphores `empty`, `full`, `mutex`, with ghost fields for
the emitted observations and the semaphore-action trace. -/
structure SharedQueue where
  queue : List Car
  empty : Semaphore
  full : Semaphore
  mutex : Semaphore
  events : List Event
  trace : List QAction
deriving DecidableEq, Repr

/-- Constructor (lines 76-77): member initialisation `empty(capacity),
full(0), mutex(1)`; the only validation is each semaphore's own
negative-initial check. -/
def SharedQueue.new (capacity : Int) : Except String SharedQueue :=
  match Semaphore.new capacity with
  | Except.error e => Except.error e
  | Except.ok em =>
    match Semaphore.new 0 with
    | Except.error e => Except.error e
    | Except.ok fu =>
      match Semaphore.new 1 with
      | Except.error e => Except.error e
      | Except.ok mu =>
        Except.ok { queue := [], empty := em, full := fu, mutex := mu,
                    events := [], trace := [] }

/-- The input-validation loop of `main` (lines 168-171): a queue size is
accepted iff the do-while condition `queueSize < 1 || queueSize > 10` is
false. -/
def mainAcceptsQueueSize (queueSize : Int) : Bool :=
  if queueSize < 1 ∨ queueSize > 10 then false else true

/-- `addCar` (lines 79-96) as a straight-line transcription: acquire
`empty`, acquire `mutex`, push + `safe_print` (critical section),
release `mutex`, release `full`.  `none` means the call has not
completed (blocked in one of the acquires). -/
def SharedQueue.addCar (q : SharedQueue) (car : Car) : Option SharedQueue :=
  match q.empty.acquire with
  | none => none
  | some e =>
    let q1 := { q with empty := e, trace := q.trace ++ [QAction.acquireEmptySlot] }
    match q1.mutex.acquire with
    | none => none
    | some m =>
      let q2 := { q1 with mutex := m, trace := q1.trace ++ [QAction.acquireMutex] }
      let q3 := { q2 with
        queue := q2.queue ++ [car],
        events := q2.events ++ [Event.queued car.carName (q2.queue.length + 1)],
        trace := q2.trace ++ [QAction.pushAndPrint] }
      let q4 := { q3 with mutex := q3.mutex.release, trace := q3.trace ++ [QAction.releaseMutex] }
      some { q4 with full := q4.full.release, trace := q4.trace ++ [QAction.releaseFullSlot] }

/-- `removeCar` (lines 98-119) as a straight-line transcription: acquire
`full`, acquire `mutex`, `front`+`pop` + `safe_print` (critical
section), release `mutex`, release `empty`; returns the popped car.
The `[]` branch of the critical section corresponds to calling
`queue.front()` on an empty container, which the semaphore protocol
makes unreachable. -/
def SharedQueue.removeCar (q : SharedQueue) (pumpId : Int) : Option (Car × SharedQueue) :=
  match q.full.acquire with
  | none => none
  | some f =>
    let q1 := { q with full := f, trace := q.trace ++ [QAction.acquireFullSlot] }
    match q1.mutex.acquire with
    | none => none
    | some m =>
      let q2 := { q1 with mutex := m, trace := q1.trace ++ [QAction.acquireMutex] }
      match q2.queue with
      | [] => none
      | car :: rest =>
        let q3 := { q2 with
          queue := rest,
          events := q2.events ++ [Event.dequeued pumpId car.carName rest.length],
          trace := q2.trace ++ [QAction.popAndPrint] }
        let q4 := { q3 with mutex := q3.mutex.release, trace := q3.trace ++ [QAction.releaseMutex] }
        some (car, { q4 with empty := q4.empty.release, trace := q4.trace ++ [QAction.releaseEmptySlot] })

/-- `getWaitingCarCount` (lines 121-124): `return full.availablePermits()`.
The pair is (returned count, queue state after the call). -/
def SharedQueue.getWaitingCarCount (q : SharedQueue) : Int × SharedQueue :=
  let r := q.full.availablePermits
  (r.1, { q with full := r.2 })

/-- The two kinds of threads of the program: the arrival stream
(`car_routine` calls spawned in order by `main`, lines 156-159 and
190-205, holding the list of cars still to be enqueued) and a pump
worker (`pump_routine`, lines 128-153, holding its `pumpId`). -/
inductive ThreadKind where
  | producer (pending : List Car)
  | worker (pumpId : Int)
deriving DecidableEq, Repr

/-- A thread of control: its kind, a micro program counter locating it
between the atomic semaphore operations of its source code, the car it
currently holds as a local variable, and whether it currently holds a
service bay. -/
structure Thread where
  kind : ThreadKind
  pc : Nat
  held : Option Car
  holdsBay : Bool
deriving DecidableEq, Repr

def Thread.isProducer (t : Thread) : Bool :=
  match t.kind with
  | ThreadKind.producer _ => true
  | ThreadKind.worker _ => false

def Thread.isWorker (t : Thread) : Bool :=
  match t.kind with
  | ThreadKind.producer _ => false
  | ThreadKind.worker _ => true

/-- Global state of the interleaved system: the FIFO container, the
permit counts of the queue's three semaphores, the permit count of the
bay-pool semaphore `pumps`, the event log, and ghost histories (cars
pushed in push order, cars popped in pop order, number of completed
bay-pool acquires and releases). -/
structure Sys where
  queue : List Car
  empty : Int
  full : Int
  mutex : Int
  pumps : Int
  events : List Event
  pushed : List Car
  popped : List Car
  bayAcquires : Nat
  bayReleases : Nat
  threads : List Thread
deriving DecidableEq, Repr

/-- Name of the car a thread holds (used only in ghost event text; a
worker at the service step always holds a car). -/
def heldCarName : Option Car → String
  | some c => c.carName
  | none => ""

/-- One atomic micro-step of thread `t` (stored at index `i`), following
the source line by line.

Producer (`car_routine` + `addCar`, lines 156-159 / 79-96):
pc 0 stage next car + print "arrived"; pc 1 `empty.acquire()`;
pc 2 `mutex.acquire()`; pc 3 push + print (critical section);
pc 4 `mutex.release()`; pc 5 `full.release()` then loop.

Worker (`pump_routine` + `removeCar`, lines 128-153 / 98-119):
pc 0 `full.acquire()`; pc 1 `mutex.acquire()`; pc 2 front+pop + print
(critical section); pc 3 `mutex.release()`; pc 4 `empty.release()`;
pc 5 `pumps.acquire()` + service-start print; pc 6 the service sleep:
if it completes, prints + `pumps.release()` and loop (`intr = false`);
if it raises, control reaches the `catch(...)` which prints
"interrupted" and ends the thread without releasing the bay
(`intr = true`); pc 7 terminated.

An acquire micro-step is enabled only when the permit count is
positive (a blocked thread simply has no step). -/
def stepOf (s : Sys) (i : Nat) (intr : Bool) (t : Thread) : Option Sys :=
  match t.kind with
  | ThreadKind.producer pending =>
    match t.pc, pending with
    | 0, c :: rest =>
      some { s with
        events := s.events ++ [Event.arrived c.carName],
        threads := s.threads.set i { t with kind := ThreadKind.producer rest, held := some c, pc := 1 } }
    | 1, _ =>
      if 0 < s.empty then
        some { s with empty := s.empty - 1, threads := s.threads.set i { t with pc := 2 } }
      else none
    | 2, _ =>
      if 0 < s.mutex then
        some { s with mutex := s.mutex - 1, threads := s.threads.set i { t with pc := 3 } }
      else none
    | 3, _ =>
      match t.held with
      | some c =>
        some { s with
          queue := s.queue ++ [c],
          pushed := s.pushed ++ [c],
          events := s.events ++ [Event.queued c.carName (s.queue.length + 1)],
          threads := s.threads.set i { t with pc := 4 } }
      | none => none
    | 4, _ =>
      some { s with mutex := s.mutex + 1, threads := s.threads.set i { t with pc := 5 } }
    | 5, _ =>
      some { s with full := s.full + 1, threads := s.threads.set i { t with held := none, pc := 0 } }
    | _, _ => none
  | ThreadKind.worker pid =>
    match t.pc with
    | 0 =>
      if 0 < s.full then
        some { s with full := s.full - 1, threads := s.threads.set i { t with pc := 1 } }
      else none
    | 1 =>
      if 0 < s.mutex then
        some { s with mutex := s.mutex - 1, threads := s.threads.set i { t with pc := 2 } }
      else none
    | 2 =>
      match s.queue with
      | [] => none
      | c :: rest =>
        some { s with
          queue := rest,
          popped := s.popped ++ [c],
          events := s.events ++ [Event.dequeued pid c.carName rest.length],
          threads := s.threads.set i { t with held := some c, pc := 3 } }
    | 3 =>
      some { s with mutex := s.mutex + 1, threads := s.threads.set i { t with pc := 4 } }
    | 4 =>
      some { s with empty := s.empty + 1, threads := s.threads.set i { t with pc := 5 } }
    | 5 =>
      if 0 < s.pumps then
        some { s with
          pumps := s.pumps - 1, bayAcquires := s.bayAcquires + 1,
          events := s.events ++ [Event.serviceStarted pid (heldCarName t.held)],
          threads := s.threads.set i { t with holdsBay := true, pc := 6 } }
      else none
    | 6 =>
      if intr then
        some { s with
          events := s.events ++ [Event.interrupted pid],
          threads := s.threads.set i { t with pc := 7 } }
      else
        some { s with
          pumps := s.pumps + 1, bayReleases := s.bayReleases + 1,
          events := s.events ++ [Event.serviceFinished pid (heldCarName t.held), Event.bayFreed pid],
          threads := s.threads.set i { t with holdsBay := false, held := none, pc := 0 } }
    | _ => none

/-- Perform the micro-step of the thread at index `i`, if it exists and
is enabled. -/
def stepThread (s : Sys) (i : Nat) (intr : Bool) : Option Sys :=
  match s.threads.get? i with
  | none => none
  | some t => stepOf s i intr t

/-- Scheduler step: some thread performs its next enabled micro-step. -/
def Step (s s' : Sys) : Prop :=
  ∃ i intr, stepThread s i intr = some s'

/-- Reflexive-transitive closure of `Step`: all states reachable by an
arbitrary interleaving. -/
inductive Reach : Sys → Sys → Prop
  | refl (s : Sys) : Reach s s
  | tail {s t u : Sys} : Reach s t → Step t u → Reach s u

/-- A freshly started thread: at its loop head, holding nothing. -/
def initThread (k : ThreadKind) : Thread :=
  { kind := k, pc := 0, held := none, holdsBay := false }

/-- Initial state of `main` (lines 179-200): an empty FIFO,
`empty = capacity`, `full = 0`, `mutex = 1`, `pumps = pumpCount`, and
every thread at its loop head. -/
def initSys (capacity pumpCount : Nat) (kinds : List ThreadKind) : Sys :=
  { queue := [], empty := (capacity : Int), full := 0, mutex := 1,
    pumps := (pumpCount : Int), events := [], pushed := [], popped := [],
    bayAcquires := 0, bayReleases := 0, threads := kinds.map initThread }

/-- Run a concrete schedule (a list of (thread index, interrupt flag)
choices); `none` if some chosen step is not enabled. -/
def runSteps : Sys → List (Nat × Bool) → Option Sys
  | s, [] => some s
  | s, (i, b) :: ms =>
    match stepThread s i b with
    | none => none
    | some s' => runSteps s' ms

/-- Integer-valued count of the threads satisfying a predicate. -/
def cPZ {α : Type} (p : α → Bool) (ts : List α) : Int :=
  ((ts.filter p).length : Int)

/-- Producer holding an empty-slot permit not yet turned into a pushed
item: between `empty.acquire()` and the push. -/
def pAE (t : Thread) : Bool := t.isProducer && (t.pc == 2 || t.pc == 3)

/-- Producer that has pushed but not yet released `full`. -/
def pPF (t : Thread) : Bool := t.isProducer && (t.pc == 4 || t.pc == 5)

/-- Producer currently holding the queue `mutex`. -/
def pMH (t : Thread) : Bool := t.isProducer && (t.pc == 3 || t.pc == 4)

/-- Worker holding a full-slot permit not yet turned into a pop:
between `full.acquire()` and the pop. -/
def wFT (t : Thread) : Bool := t.isWorker && (t.pc == 1 || t.pc == 2)

/-- Worker that has popped but not yet released `empty`. -/
def wER (t : Thread) : Bool := t.isWorker && (t.pc == 3 || t.pc == 4)

/-- Worker currently holding the queue `mutex`. -/
def wMH (t : Thread) : Bool := t.isWorker && (t.pc == 2 || t.pc == 3)

/-- A thread at rest with respect to the queue: not midway through an
`addCar`/`removeCar` call (threads blocked at the very first acquire of
an operation hold nothing and count as at rest; workers at the bay
acquire, in service, or terminated are outside the queue code). -/
def Thread.atRest (t : Thread) : Bool :=
  match t.kind with
  | ThreadKind.producer _ => t.pc == 0 || t.pc == 1
  | ThreadKind.worker _ => t.pc == 0 || t.pc == 5 || t.pc == 6 || t.pc == 7

/-- Quiescent state: no thread midway through a queue operation (in
particular no thread in the critical section). -/
def Sys.quiescent (s : Sys) : Bool := s.threads.all Thread.atRest

/-- The main invariant of the interleaved system, for a queue of
capacity `n` and a bay pool of `p` permits. -/
def SysInv (n p : Nat) (s : Sys) : Prop :=
  0 ≤ s.empty ∧ 0 ≤ s.full ∧ 0 ≤ s.mutex ∧ 0 ≤ s.pumps ∧
  s.empty + (s.queue.length : Int) + cPZ pAE s.threads + cPZ wER s.threads = (n : Int) ∧
  (s.queue.length : Int) = s.full + cPZ pPF s.threads + cPZ wFT s.threads ∧
  s.mutex + cPZ pMH s.threads + cPZ wMH s.threads = 1 ∧
  s.pumps + cPZ Thread.holdsBay s.threads = (p : Int) ∧
  (s.bayAcquires : Int) = (s.bayReleases : Int) + cPZ Thread.holdsBay s.threads ∧
  s.popped ++ s.queue = s.pushed ∧
  (∀ t ∈ s.threads,
    (t.isProducer = true → t.holdsBay = false) ∧
    (t.isWorker = true → (t.holdsBay = true ↔ (t.pc = 6 ∨ t.pc = 7))))

/-- Producer pcs at which the staged car in `held` has not yet been
pushed. -/
def pcStaged (t : Thread) : Bool := t.pc == 1 || t.pc == 2 || t.pc == 3

/-- The cars a producer has accepted but not yet pushed, in order. -/
def prodOutstanding (t : Thread) : List Car :=
  match t.kind with
  | ThreadKind.producer pending =>
    (if pcStaged t then t.held.toList else []) ++ pending
  | ThreadKind.worker _ => []

/-- Auxiliary invariant for the single-producer single-worker system:
the push history followed by the producer's outstanding cars is exactly
the original arrival list. -/
def InvFifo (cars : List Car) (s : Sys) : Prop :=
  match s.threads with
  | [tp, tw] => tp.isProducer = true ∧ tw.isWorker = true ∧
      s.pushed ++ prodOutstanding tp = cars
  | _ => False

/-- Every producer has finished its arrival list and returned (the
orchestrator has joined the arrival threads, lines 203-205). -/
def arrivalsJoined (s : Sys) : Bool :=
  s.threads.all fun t =>
    match t.kind with
    | ThreadKind.producer pending => pending.isEmpty && t.pc == 0
    | ThreadKind.worker _ => true

/-- Every worker is at the top of its loop, blocked waiting for a
client inside `full.acquire()`. -/
def workersAllWaiting (s : Sys) : Bool :=
  s.threads.all fun t =>
    match t.kind with
    | ThreadKind.producer _ => true
    | ThreadKind.worker _ => t.pc == 0

/-- Concrete system used by the counterexample traces: capacity 1, one
bay, one arrival ("Car 1") and one pump worker. -/
def cexInit : Sys :=
  initSys 1 1 [ThreadKind.producer [{ carName := "Car 1", carId := 1 }], ThreadKind.worker 1]

/-- Schedule: the arrival completes its `addCar`, then the worker
completes `removeCar` and stops just before `pumps.acquire()`. -/
def drainCexMoves : List (Nat × Bool) :=
  [(0, false), (0, false), (0, false), (0, false), (0, false), (0, false),
   (1, false), (1, false), (1, false), (1, false), (1, false)]

/-- The state the drain monitor samples in the counterexample. -/
def drainCexSample : Sys := (runSteps cexInit drainCexMoves).getD cexInit

/-- The state right after the worker then acquires its bay. -/
def drainCexNext : Sys := (stepThread drainCexSample 1 false).getD drainCexSample

/-- Schedule for the interrupted-service counterexample: arrival
completes, worker dequeues, acquires the bay, and is then interrupted
during the service sleep. -/
def pumpCexMoves : List (Nat × Bool) :=
  [(0, false), (0, false), (0, false), (0, false), (0, false), (0, false),
   (1, false), (1, false), (1, false), (1, false), (1, false), (1, false),
   (1, true)]

/-- Final state of the interrupted-service counterexample. -/
def pumpCexFinal : Sys := (runSteps cexInit pumpCexMoves).getD cexInit

/-- Concrete capacity-1 queue used to witness the step-order theorem. -/
def c3q0 : SharedQueue :=
  { queue := [], empty := { slots := 1 }, full := { slots := 0 },
    mutex := { slots := 1 }, events := [], trace := [] }

/-- Concrete car used by witnesses. -/
def c3car : Car := { carName := "Car 1", carId := 1 }

/-- State after `addCar` on the witness queue. -/
def c3q1 : SharedQueue := (c3q0.addCar c3car).getD c3q0

/-- Result of `removeCar` on the witness queue. -/
def c3pair : Car × SharedQueue := (c3q1.removeCar 1).getD (c3car, c3q1)

/-- Auxiliary: completed semaphore runs preserve non-negativity of the
permit count. -/
theorem semaphore_run_nonneg : ∀ (ops : List SemOp) (s s' : Semaphore),
    0 ≤ s.slots → Semaphore.run s ops = some s' → 0 ≤ s'.slots := by
  intro ops
  induction ops with
  | nil =>
    intro s s' h hr
    unfold Semaphore.run at hr
    cases hr
    exact h
  | cons op ops ih =>
    intro s s' h hr
    cases op with
    | acq =>
      unfold Semaphore.run at hr
      unfold Semaphore.acquire at hr
      by_cases hpos : 0 < s.slots
      · simp only [if_pos hpos] at hr
        exact ih _ _ (show (0 : Int) ≤ s.slots - 1 by omega) hr
      · simp only [if_neg hpos] at hr
        cases hr
    | rel =>
      unfold Semaphore.run at hr
      exact ih _ _ (show (0 : Int) ≤ s.slots + 1 by omega) hr

/-- C7: for every validly constructed semaphore and every completed
sequence of acquire/release operations, the permit count never goes
negative; a completed acquire decrements the count by 1 from a value
> 0 (the wait predicate `slots > 0` is what lets it complete); and a
release increments the count by exactly 1. -/
theorem semaphore_permits_invariant (initialSlots : Int) (s0 : Semaphore)
    (h0 : Semaphore.new initialSlots = Except.ok s0)
    (ops : List SemOp) (s : Semaphore)
    (h : Semaphore.run s0 ops = some s) :
    0 ≤ s.slots ∧
    (∀ s', s.acquire = some s' → 0 < s.slots ∧ s'.slots = s.slots - 1) ∧
    s.release.slots = s.slots + 1 := by
  have h00 : 0 ≤ s0.slots := by
    unfold Semaphore.new at h0
    split at h0
    · cases h0
    · rename_i hge
      cases h0
      show 0 ≤ initialSlots
      omega
  refine ⟨semaphore_run_nonneg ops s0 s h00 h, ?_, rfl⟩
  intro s' ha
  unfold Semaphore.acquire at ha
  split at ha
  · cases ha
    exact ⟨by assumption, rfl⟩
  · cases ha

/-- Witness for `semaphore_permits_invariant` at `initialSlots = 1`,
`ops = [acq, rel]` (the run ends back at one permit). -/
theorem semaphore_permits_invariant_witness :
    0 ≤ (Semaphore.mk 1).slots :=
  (semaphore_permits_invariant 1 (Semaphore.mk 1) rfl [SemOp.acq, SemOp.rel]
    (Semaphore.mk 1) rfl).1

/-- C8: constructing a semaphore with a negative initial count fails
with the invalid-configuration error; any non-negative count succeeds
(yielding exactly that permit count); `release` is total (always
increments by 1) and `acquire` never fails: it stays blocked only when
no permit is available. -/
theorem semaphore_construction_validation (initialSlots : Int) :
    (initialSlots < 0 →
      Semaphore.new initialSlots = Except.error "Initial slots cannot be negative") ∧
    (0 ≤ initialSlots → Semaphore.new initialSlots = Except.ok { slots := initialSlots }) ∧
    (∀ s : Semaphore, s.release = { slots := s.slots + 1 }) ∧
    (∀ s : Semaphore, s.acquire = none → s.slots ≤ 0) := by
  refine ⟨?_, ?_, fun s => rfl, ?_⟩
  · intro h
    unfold Semaphore.new
    simp [h]
  · intro h
    unfold Semaphore.new
    simp [h]
  · intro s ha
    unfold Semaphore.acquire at ha
    split at ha
    · cases ha
    · omega

/-- Witness for `semaphore_construction_validation` at `-1` and `2`. -/
theorem semaphore_construction_validation_witness :
    Semaphore.new (-1) = Except.error "Initial slots cannot be negative" ∧
    Semaphore.new 2 = Except.ok { slots := 2 } :=
  ⟨(semaphore_construction_validation (-1)).1 (by norm_num),
   (semaphore_construction_validation 2).2.1 (by norm_num)⟩

/-- C4 counterexample: constructing the shared queue with capacity 0
succeeds (the only validation is each member semaphore's negative-check,
and `empty(0)`, `full(0)`, `mutex(1)` are all accepted). -/
theorem sharedQueue_capacity_zero_constructs :
    SharedQueue.new 0 = Except.ok
      { queue := [], empty := { slots := 0 }, full := { slots := 0 },
        mutex := { slots := 1 }, events := [], trace := [] } := rfl

/-- Auxiliary: closed form of the queue constructor. -/
theorem sharedQueue_new_eq (capacity : Int) :
    SharedQueue.new capacity =
      if capacity < 0 then Except.error "Initial slots cannot be negative"
      else Except.ok { queue := [], empty := { slots := capacity }, full := { slots := 0 },
                       mutex := { slots := 1 }, events := [], trace := [] } := by
  unfold SharedQueue.new Semaphore.new
  by_cases h : capacity < 0
  · simp only [if_pos h]
  · simp only [if_neg h]
    rfl

/-- C4 amended: queue construction fails (with the semaphore's
invalid-configuration error) exactly when `capacity < 0`, succeeds for
every `capacity ≥ 0`, and the `1..10` bound on the waiting-area size is
enforced only by the interactive validation loop in `main`. -/
theorem sharedQueue_construction_validation (capacity : Int) :
    ((∃ e, SharedQueue.new capacity = Except.error e) ↔ capacity < 0) ∧
    ((∃ q, SharedQueue.new capacity = Except.ok q) ↔ 0 ≤ capacity) ∧
    (mainAcceptsQueueSize capacity = true ↔ (1 ≤ capacity ∧ capacity ≤ 10)) := by
  rw [sharedQueue_new_eq]
  refine ⟨?_, ?_, ?_⟩
  · by_cases h : capacity < 0 <;> simp [h]
  · by_cases h : capacity < 0 <;> simp [h]
    omega
  · unfold mainAcceptsQueueSize
    split
    · rename_i hcond
      simp
      omega
    · rename_i hcond
      simp
      omega

/-- C10: `availablePermits` and `getWaitingCarCount` are pure
observers: they leave the semaphore, the FIFO contents and all three
queue semaphores unchanged, and `getWaitingCarCount` returns exactly
`full.availablePermits()`. -/
theorem observers_are_pure (sem : Semaphore) (q : SharedQueue) :
    sem.availablePermits.2 = sem ∧
    sem.availablePermits.1 = sem.slots ∧
    q.getWaitingCarCount.2 = q ∧
    q.getWaitingCarCount.1 = q.full.availablePermits.1 :=
  ⟨rfl, rfl, rfl, rfl⟩

/-- C3: a completed `addCar` performs exactly acquire `empty`, acquire
`mutex`, push+print, release `mutex`, release `full`, and a completed
`removeCar` performs exactly acquire `full`, acquire `mutex`, pop+print,
release `mutex`, release `empty` — in those orders. -/
theorem addCar_removeCar_step_sequences (q q1 q2 : SharedQueue) (car retCar : Car)
    (pumpId : Int)
    (h1 : q.addCar car = some q1)
    (h2 : q1.removeCar pumpId = some (retCar, q2)) :
    q1.trace = q.trace ++ [QAction.acquireEmptySlot, QAction.acquireMutex,
      QAction.pushAndPrint, QAction.releaseMutex, QAction.releaseFullSlot] ∧
    q2.trace = q1.trace ++ [QAction.acquireFullSlot, QAction.acquireMutex,
      QAction.popAndPrint, QAction.releaseMutex, QAction.releaseEmptySlot] := by
  constructor
  · unfold SharedQueue.addCar at h1
    split at h1
    · cases h1
    · dsimp only at h1
      split at h1
      · cases h1
      · cases h1
        simp
  · unfold SharedQueue.removeCar at h2
    split at h2
    · cases h2
    · dsimp only at h2
      split at h2
      · cases h2
      · split at h2
        · cases h2
        · cases h2
          simp

/-- Witness for `addCar_removeCar_step_sequences` on a capacity-1
queue. -/
theorem addCar_removeCar_step_sequences_witness :
    c3q1.trace = c3q0.trace ++ [QAction.acquireEmptySlot, QAction.acquireMutex,
      QAction.pushAndPrint, QAction.releaseMutex, QAction.releaseFullSlot] ∧
    c3pair.2.trace = c3q1.trace ++ [QAction.acquireFullSlot, QAction.acquireMutex,
      QAction.popAndPrint, QAction.releaseMutex, QAction.releaseEmptySlot] :=
  addCar_removeCar_step_sequences c3q0 c3q1 c3pair.2 c3car c3pair.1 1 rfl rfl

/-- Auxiliary: thread counts are non-negative. -/
theorem cPZ_nonneg {α : Type} (p : α → Bool) (ts : List α) : 0 ≤ cPZ p ts := by
  unfold cPZ
  positivity

/-- Auxiliary: how a count changes when one list element is replaced. -/
theorem cPZ_set {α : Type} (p : α → Bool) :
    ∀ (ts : List α) (i : Nat) (t t' : α), ts.get? i = some t →
      cPZ p (ts.set i t') =
        cPZ p ts + (if p t' = true then 1 else 0) - (if p t = true then 1 else 0) := by
  intro ts
  induction ts with
  | nil =>
    intro i t t' h
    simp at h
  | cons a as ih =>
    intro i t t' h
    cases i with
    | zero =>
      rw [List.get?_cons_zero] at h
      injection h with h
      subst h
      rw [List.set_cons_zero]
      unfold cPZ
      rw [List.filter_cons, List.filter_cons]
      by_cases hp : p a <;> by_cases hp' : p t' <;> simp [hp, hp']
    | succ n =>
      rw [List.get?_cons_succ] at h
      rw [List.set_cons_succ]
      have hrec := ih n t t' h
      unfold cPZ at hrec ⊢
      rw [List.filter_cons, List.filter_cons]
      by_cases hp : p a <;> simp [hp] at hrec ⊢ <;> omega

/-- Auxiliary: a count is zero when no element satisfies the predicate. -/
theorem cPZ_zero {α : Type} (p : α → Bool) (ts : List α)
    (h : ∀ t ∈ ts, p t = false) : cPZ p ts = 0 := by
  unfold cPZ
  have : ts.filter p = [] := List.filter_eq_nil_iff.mpr (by intro a ha; simp [h a ha])
  rw [this]
  rfl

/-- Auxiliary: a count is at least one when some member satisfies the
predicate. -/
theorem cPZ_pos {α : Type} (p : α → Bool) (ts : List α) (t : α)
    (ht : t ∈ ts) (hp : p t = true) : 1 ≤ cPZ p ts := by
  unfold cPZ
  have : t ∈ ts.filter p := List.mem_filter.mpr ⟨ht, hp⟩
  have : 0 < (ts.filter p).length := List.length_pos.mpr (by
    intro hnil
    rw [hnil] at this
    cases this)
  omega

/-- Auxiliary: replacing a thread without changing the predicate value
leaves the count unchanged. -/
theorem cPZ_set_eq {α : Type} (p : α → Bool) (ts : List α) (i : Nat) (t t' : α)
    (hget : ts.get? i = some t) (hsame : p t' = p t) :
    cPZ p (ts.set i t') = cPZ p ts := by
  rw [cPZ_set p ts i t t' hget, hsame]
  omega

/-- Auxiliary: preservation of the main invariant by one micro-step. -/
theorem sysInv_preserved (n p : Nat) (s s' : Sys) (i : Nat) (intr : Bool)
    (hinv : SysInv n p s) (h : stepThread s i intr = some s') : SysInv n p s' := by
  unfold stepThread at h
  cases hget : s.threads.get? i with
  | none => rw [hget] at h; cases h
  | some t =>
    rw [hget] at h
    obtain ⟨hE, hF, hM, hP, h2, h3, h4, h5, h6, h7, hW⟩ := hinv
    have hmem : t ∈ s.threads := List.get?_mem hget
    obtain ⟨kind, pc, held, hb⟩ := t
    cases kind with
    | producer pending =>
      unfold stepOf at h
      dsimp only at h
      split at h
      · -- pc 0: stage the next pending car
        injection h with h
        subst h
        unfold SysInv
        dsimp only
        rw [cPZ_set pAE _ i _ _ hget, cPZ_set pPF _ i _ _ hget, cPZ_set pMH _ i _ _ hget,
            cPZ_set wFT _ i _ _ hget, cPZ_set wER _ i _ _ hget, cPZ_set wMH _ i _ _ hget,
            cPZ_set Thread.holdsBay _ i _ _ hget]
        simp only [pAE, pPF, pMH, wFT, wER, wMH, Thread.isProducer, Thread.isWorker]
        norm_num
        refine ⟨hE, hF, hM, hP, h2, h3, h4, by omega, by omega, h7, ?_⟩
        intro u hu
        rcases List.mem_or_eq_of_mem_set hu with hu | rfl
        · exact hW u hu
        · exact ⟨fun _ => (hW _ hmem).1 rfl, fun hw => by simp [Thread.isWorker] at hw⟩
      · -- pc 1: empty.acquire()
        split at h
        · rename_i hpos
          injection h with h
          subst h
          unfold SysInv
          dsimp only
          rw [cPZ_set pAE _ i _ _ hget, cPZ_set pPF _ i _ _ hget, cPZ_set pMH _ i _ _ hget,
              cPZ_set wFT _ i _ _ hget, cPZ_set wER _ i _ _ hget, cPZ_set wMH _ i _ _ hget,
              cPZ_set Thread.holdsBay _ i _ _ hget]
          simp only [pAE, pPF, pMH, wFT, wER, wMH, Thread.isProducer, Thread.isWorker]
          norm_num
          refine ⟨by omega, hF, hM, hP, by omega, h3, h4, by omega, by omega, h7, ?_⟩
          intro u hu
          rcases List.mem_or_eq_of_mem_set hu with hu | rfl
          · exact hW u hu
          · exact ⟨fun _ => (hW _ hmem).1 rfl, fun hw => by simp [Thread.isWorker] at hw⟩
        · cases h
      · -- pc 2: mutex.acquire()
        split at h
        · rename_i hpos
          injection h with h
          subst h
          unfold SysInv
          dsimp only
          rw [cPZ_set pAE _ i _ _ hget, cPZ_set pPF _ i _ _ hget, cPZ_set pMH _ i _ _ hget,
              cPZ_set wFT _ i _ _ hget, cPZ_set wER _ i _ _ hget, cPZ_set wMH _ i _ _ hget,
              cPZ_set Thread.holdsBay _ i _ _ hget]
          simp only [pAE, pPF, pMH, wFT, wER, wMH, Thread.isProducer, Thread.isWorker]
          norm_num
          refine ⟨hE, hF, by omega, hP, by omega, h3, by omega, by omega, by omega, h7, ?_⟩
          intro u hu
          rcases List.mem_or_eq_of_mem_set hu with hu | rfl
          · exact hW u hu
          · exact ⟨fun _ => (hW _ hmem).1 rfl, fun hw => by simp [Thread.isWorker] at hw⟩
        · cases h
      · -- pc 3: push + print (critical section)
        split at h
        · rename_i c hheld
          injection h with h
          subst h
          unfold SysInv
          dsimp only
          rw [cPZ_set pAE _ i _ _ hget, cPZ_set pPF _ i _ _ hget, cPZ_set pMH _ i _ _ hget,
              cPZ_set wFT _ i _ _ hget, cPZ_set wER _ i _ _ hget, cPZ_set wMH _ i _ _ hget,
              cPZ_set Thread.holdsBay _ i _ _ hget]
          simp only [pAE, pPF, pMH, wFT, wER, wMH, Thread.isProducer, Thread.isWorker,
            List.length_append, List.length_cons, List.length_nil]
          norm_num
          refine ⟨hE, hF, hM, hP, by omega, by omega, by omega, by omega, by omega, ?_, ?_⟩
          · rw [← List.append_assoc, h7]
          · intro u hu
            rcases List.mem_or_eq_of_mem_set hu with hu | rfl
            · exact hW u hu
            · exact ⟨fun _ => (hW _ hmem).1 rfl, fun hw => by simp [Thread.isWorker] at hw⟩
        · cases h
      · -- pc 4: mutex.release()
        injection h with h
        subst h
        unfold SysInv
        dsimp only
        rw [cPZ_set pAE _ i _ _ hget, cPZ_set pPF _ i _ _ hget, cPZ_set pMH _ i _ _ hget,
            cPZ_set wFT _ i _ _ hget, cPZ_set wER _ i _ _ hget, cPZ_set wMH _ i _ _ hget,
            cPZ_set Thread.holdsBay _ i _ _ hget]
        simp only [pAE, pPF, pMH, wFT, wER, wMH, Thread.isProducer, Thread.isWorker]
        norm_num
        refine ⟨hE, hF, by omega, hP, by omega, by omega, by omega, by omega, by omega, h7, ?_⟩
        intro u hu
        rcases List.mem_or_eq_of_mem_set hu with hu | rfl
        · exact hW u hu
        · exact ⟨fun _ => (hW _ hmem).1 rfl, fun hw => by simp [Thread.isWorker] at hw⟩
      · -- pc 5: full.release(), loop back
        injection h with h
        subst h
        unfold SysInv
        dsimp only
        rw [cPZ_set pAE _ i _ _ hget, cPZ_set pPF _ i _ _ hget, cPZ_set pMH _ i _ _ hget,
            cPZ_set wFT _ i _ _ hget, cPZ_set wER _ i _ _ hget, cPZ_set wMH _ i _ _ hget,
            cPZ_set Thread.holdsBay _ i _ _ hget]
        simp only [pAE, pPF, pMH, wFT, wER, wMH, Thread.isProducer, Thread.isWorker]
        norm_num
        refine ⟨hE, by omega, hM, hP, by omega, by omega, by omega, by omega, by omega, h7, ?_⟩
        intro u hu
        rcases List.mem_or_eq_of_mem_set hu with hu | rfl
        · exact hW u hu
        · exact ⟨fun _ => (hW _ hmem).1 rfl, fun hw => by simp [Thread.isWorker] at hw⟩
      · -- unreachable pcs
        cases h
    | worker pid =>
      unfold stepOf at h
      dsimp only at h
      split at h
      · -- pc 0: full.acquire()
        split at h
        · rename_i hpos
          injection h with h
          subst h
          have hb0 : hb = false := by
            have hx := (hW _ hmem).2 rfl
            simp at hx
            exact hx
          subst hb0
          unfold SysInv
          dsimp only
          rw [cPZ_set pAE _ i _ _ hget, cPZ_set pPF _ i _ _ hget, cPZ_set pMH _ i _ _ hget,
              cPZ_set wFT _ i _ _ hget, cPZ_set wER _ i _ _ hget, cPZ_set wMH _ i _ _ hget,
              cPZ_set Thread.holdsBay _ i _ _ hget]
          simp only [pAE, pPF, pMH, wFT, wER, wMH, Thread.isProducer, Thread.isWorker]
          norm_num
          refine ⟨hE, by omega, hM, hP, by omega, by omega, by omega, by omega, by omega, h7, ?_⟩
          intro u hu
          rcases List.mem_or_eq_of_mem_set hu with hu | rfl
          · exact hW u hu
          · exact ⟨fun hp => by simp [Thread.isProducer] at hp, fun _ => by simp⟩
        · cases h
      · -- pc 1: mutex.acquire()
        split at h
        · rename_i hpos
          injection h with h
          subst h
          have hb0 : hb = false := by
            have hx := (hW _ hmem).2 rfl
            simp at hx
            exact hx
          subst hb0
          unfold SysInv
          dsimp only
          rw [cPZ_set pAE _ i _ _ hget, cPZ_set pPF _ i _ _ hget, cPZ_set pMH _ i _ _ hget,
              cPZ_set wFT _ i _ _ hget, cPZ_set wER _ i _ _ hget, cPZ_set wMH _ i _ _ hget,
              cPZ_set Thread.holdsBay _ i _ _ hget]
          simp only [pAE, pPF, pMH, wFT, wER, wMH, Thread.isProducer, Thread.isWorker]
          norm_num
          refine ⟨hE, hF, by omega, hP, by omega, by omega, by omega, by omega, by omega, h7, ?_⟩
          intro u hu
          rcases List.mem_or_eq_of_mem_set hu with hu | rfl
          · exact hW u hu
          · exact ⟨fun hp => by simp [Thread.isProducer] at hp, fun _ => by simp⟩
        · cases h
      · -- pc 2: front + pop + print (critical section)
        split at h
        · cases h
        · rename_i c rest heq
          injection h with h
          subst h
          have hb0 : hb = false := by
            have hx := (hW _ hmem).2 rfl
            simp at hx
            exact hx
          subst hb0
          rw [heq] at h2 h3 h7
          simp only [List.length_cons] at h2 h3
          unfold SysInv
          dsimp only
          rw [cPZ_set pAE _ i _ _ hget, cPZ_set pPF _ i _ _ hget, cPZ_set pMH _ i _ _ hget,
              cPZ_set wFT _ i _ _ hget, cPZ_set wER _ i _ _ hget, cPZ_set wMH _ i _ _ hget,
              cPZ_set Thread.holdsBay _ i _ _ hget]
          simp only [pAE, pPF, pMH, wFT, wER, wMH, Thread.isProducer, Thread.isWorker]
          norm_num
          refine ⟨hE, hF, hM, hP, by omega, by omega, by omega, by omega, by omega, ?_, ?_⟩
          · exact h7
          · intro u hu
            rcases List.mem_or_eq_of_mem_set hu with hu | rfl
            · exact hW u hu
            · exact ⟨fun hp => by simp [Thread.isProducer] at hp, fun _ => by simp⟩
      · -- pc 3: mutex.release()
        injection h with h
        subst h
        have hb0 : hb = false := by
          have hx := (hW _ hmem).2 rfl
          simp at hx
          exact hx
        subst hb0
        unfold SysInv
        dsimp only
        rw [cPZ_set pAE _ i _ _ hget, cPZ_set pPF _ i _ _ hget, cPZ_set pMH _ i _ _ hget,
            cPZ_set wFT _ i _ _ hget, cPZ_set wER _ i _ _ hget, cPZ_set wMH _ i _ _ hget,
            cPZ_set Thread.holdsBay _ i _ _ hget]
        simp only [pAE, pPF, pMH, wFT, wER, wMH, Thread.isProducer, Thread.isWorker]
        norm_num
        refine ⟨hE, hF, by omega, hP, by omega, by omega, by omega, by omega, by omega, h7, ?_⟩
        intro u hu
        rcases List.mem_or_eq_of_mem_set hu with hu | rfl
        · exact hW u hu
        · exact ⟨fun hp => by simp [Thread.isProducer] at hp, fun _ => by simp⟩
      · -- pc 4: empty.release()
        injection h with h
        subst h
        have hb0 : hb = false := by
          have hx := (hW _ hmem).2 rfl
          simp at hx
          exact hx
        subst hb0
        unfold SysInv
        dsimp only
        rw [cPZ_set pAE _ i _ _ hget, cPZ_set pPF _ i _ _ hget, cPZ_set pMH _ i _ _ hget,
            cPZ_set wFT _ i _ _ hget, cPZ_set wER _ i _ _ hget, cPZ_set wMH _ i _ _ hget,
            cPZ_set Thread.holdsBay _ i _ _ hget]
        simp only [pAE, pPF, pMH, wFT, wER, wMH, Thread.isProducer, Thread.isWorker]
        norm_num
        refine ⟨by omega, hF, hM, hP, by omega, by omega, by omega, by omega, by omega, h7, ?_⟩
        intro u hu
        rcases List.mem_or_eq_of_mem_set hu with hu | rfl
        · exact hW u hu
        · exact ⟨fun hp => by simp [Thread.isProducer] at hp, fun _ => by simp⟩
      · -- pc 5: pumps.acquire() + service-start print
        split at h
        · rename_i hpos
          injection h with h
          subst h
          have hb0 : hb = false := by
            have hx := (hW _ hmem).2 rfl
            simp at hx
            exact hx
          subst hb0
          unfold SysInv
          dsimp only
          rw [cPZ_set pAE _ i _ _ hget, cPZ_set pPF _ i _ _ hget, cPZ_set pMH _ i _ _ hget,
              cPZ_set wFT _ i _ _ hget, cPZ_set wER _ i _ _ hget, cPZ_set wMH _ i _ _ hget,
              cPZ_set Thread.holdsBay _ i _ _ hget]
          simp only [pAE, pPF, pMH, wFT, wER, wMH, Thread.isProducer, Thread.isWorker,
            Thread.holdsBay]
          norm_num
          refine ⟨hE, hF, hM, by omega, by omega, by omega, by omega, by omega, by omega, h7, ?_⟩
          intro u hu
          rcases List.mem_or_eq_of_mem_set hu with hu | rfl
          · exact hW u hu
          · exact ⟨fun hp => by simp [Thread.isProducer] at hp, fun _ => by simp⟩
        · cases h
      · -- pc 6: service sleep; interrupted or normal completion
        split at h
        · -- interrupted: catch(...) ends the thread, bay not released
          injection h with h
          subst h
          have hb1 : hb = true := ((hW _ hmem).2 rfl).2 (Or.inl rfl)
          subst hb1
          unfold SysInv
          dsimp only
          rw [cPZ_set pAE _ i _ _ hget, cPZ_set pPF _ i _ _ hget, cPZ_set pMH _ i _ _ hget,
              cPZ_set wFT _ i _ _ hget, cPZ_set wER _ i _ _ hget, cPZ_set wMH _ i _ _ hget,
              cPZ_set Thread.holdsBay _ i _ _ hget]
          simp only [pAE, pPF, pMH, wFT, wER, wMH, Thread.isProducer, Thread.isWorker,
            Thread.holdsBay]
          norm_num
          refine ⟨hE, hF, hM, hP, by omega, by omega, by omega, by omega, by omega, h7, ?_⟩
          intro u hu
          rcases List.mem_or_eq_of_mem_set hu with hu | rfl
          · exact hW u hu
          · exact ⟨fun hp => by simp [Thread.isProducer] at hp, fun _ => by simp⟩
        · -- normal completion: prints + pumps.release(), loop back
          injection h with h
          subst h
          have hb1 : hb = true := ((hW _ hmem).2 rfl).2 (Or.inl rfl)
          subst hb1
          unfold SysInv
          dsimp only
          rw [cPZ_set pAE _ i _ _ hget, cPZ_set pPF _ i _ _ hget, cPZ_set pMH _ i _ _ hget,
              cPZ_set wFT _ i _ _ hget, cPZ_set wER _ i _ _ hget, cPZ_set wMH _ i _ _ hget,
              cPZ_set Thread.holdsBay _ i _ _ hget]
          simp only [pAE, pPF, pMH, wFT, wER, wMH, Thread.isProducer, Thread.isWorker,
            Thread.holdsBay]
          norm_num
          refine ⟨hE, hF, hM, by omega, by omega, by omega, by omega, by omega, by omega, h7, ?_⟩
          intro u hu
          rcases List.mem_or_eq_of_mem_set hu with hu | rfl
          · exact hW u hu
          · exact ⟨fun hp => by simp [Thread.isProducer] at hp, fun _ => by simp⟩
      · -- unreachable pcs
        cases h

/-- Auxiliary: the invariant holds in any initial state. -/
theorem sysInv_init (n p : Nat) (kinds : List ThreadKind) :
    SysInv n p (initSys n p kinds) := by
  unfold SysInv initSys
  dsimp only
  have hall : ∀ (q : Thread → Bool), (∀ k : ThreadKind, q (initThread k) = false) →
      cPZ q (kinds.map initThread) = 0 := by
    intro q hq
    apply cPZ_zero
    intro t ht
    obtain ⟨k, _, rfl⟩ := List.mem_map.mp ht
    exact hq k
  rw [hall pAE (fun k => by cases k <;> rfl), hall pPF (fun k => by cases k <;> rfl),
      hall pMH (fun k => by cases k <;> rfl), hall wFT (fun k => by cases k <;> rfl),
      hall wER (fun k => by cases k <;> rfl), hall wMH (fun k => by cases k <;> rfl),
      hall Thread.holdsBay (fun k => by cases k <;> rfl)]
  refine ⟨by positivity, le_refl 0, by norm_num, by positivity, by simp, by simp,
    by norm_num, by simp, by simp, rfl, ?_⟩
  intro t ht
  obtain ⟨k, _, rfl⟩ := List.mem_map.mp ht
  cases k with
  | producer pending => exact ⟨fun _ => rfl, fun hw => by simp [Thread.isWorker, initThread] at hw⟩
  | worker pid => exact ⟨fun hp => by simp [Thread.isProducer, initThread] at hp,
      fun _ => by simp [initThread]⟩

/-- Auxiliary: the invariant holds in every reachable state. -/
theorem sysInv_reach (n p : Nat) (kinds : List ThreadKind) (s : Sys)
    (h : Reach (initSys n p kinds) s) : SysInv n p s := by
  induction h with
  | refl => exact sysInv_init n p kinds
  | tail hr hs ih =>
    obtain ⟨i, intr, hstep⟩ := hs
    exact sysInv_preserved n p _ _ i intr ih hstep

/-- Auxiliary: reachability is transitive. -/
theorem reach_trans {s t u : Sys} (h1 : Reach s t) (h2 : Reach t u) : Reach s u := by
  induction h2 with
  | refl => exact h1
  | tail hr hs ih => exact Reach.tail ih hs

/-- Auxiliary: a successful concrete schedule witnesses reachability. -/
theorem runSteps_reach : ∀ (ms : List (Nat × Bool)) (s s' : Sys),
    runSteps s ms = some s' → Reach s s' := by
  intro ms
  induction ms with
  | nil =>
    intro s s' h
    unfold runSteps at h
    cases h
    exact Reach.refl s
  | cons m ms ih =>
    intro s s' h
    obtain ⟨i, b⟩ := m
    unfold runSteps at h
    cases hstep : stepThread s i b with
    | none => rw [hstep] at h; cases h
    | some s1 =>
      rw [hstep] at h
      have h1 : Reach s s1 := Reach.tail (Reach.refl s) ⟨i, b, hstep⟩
      exact reach_trans h1 (ih s1 s' h)


/-- Auxiliary: a thread at rest satisfies none of the mid-operation
predicates. -/
theorem atRest_excludes (t : Thread) (h : t.atRest = true) :
    pAE t = false ∧ pPF t = false ∧ pMH t = false ∧
    wFT t = false ∧ wER t = false ∧ wMH t = false := by
  obtain ⟨kind, pc, held, hb⟩ := t
  cases kind with
  | producer pending =>
    simp [Thread.atRest] at h
    rcases h with h | h <;> subst h <;> exact ⟨rfl, rfl, rfl, rfl, rfl, rfl⟩
  | worker pid =>
    simp [Thread.atRest] at h
    rcases h with ((h | h) | h) | h <;> subst h <;> exact ⟨rfl, rfl, rfl, rfl, rfl, rfl⟩

/-- Auxiliary: in a quiescent state all mid-operation counts vanish. -/
theorem quiescent_counts (s : Sys) (h : s.quiescent = true) :
    cPZ pAE s.threads = 0 ∧ cPZ pPF s.threads = 0 ∧ cPZ pMH s.threads = 0 ∧
    cPZ wFT s.threads = 0 ∧ cPZ wER s.threads = 0 ∧ cPZ wMH s.threads = 0 := by
  unfold Sys.quiescent at h
  rw [List.all_eq_true] at h
  exact ⟨cPZ_zero _ _ fun t ht => (atRest_excludes t (h t ht)).1,
         cPZ_zero _ _ fun t ht => (atRest_excludes t (h t ht)).2.1,
         cPZ_zero _ _ fun t ht => (atRest_excludes t (h t ht)).2.2.1,
         cPZ_zero _ _ fun t ht => (atRest_excludes t (h t ht)).2.2.2.1,
         cPZ_zero _ _ fun t ht => (atRest_excludes t (h t ht)).2.2.2.2.1,
         cPZ_zero _ _ fun t ht => (atRest_excludes t (h t ht)).2.2.2.2.2⟩

/-- C1: under every interleaving of `addCar`/`removeCar` operations on a
queue of capacity `n`, the FIFO's length never exceeds `n` and never
goes negative, and at every quiescent point (no thread midway through a
queue operation) `empty.availablePermits() + full.availablePermits()`
equals `n` and the FIFO's length equals `full.availablePermits()`. -/
theorem queue_capacity_and_slot_conservation (n p : Nat) (kinds : List ThreadKind)
    (s : Sys) (h : Reach (initSys n p kinds) s) :
    ((s.queue.length : Int) ≤ (n : Int) ∧ 0 ≤ (s.queue.length : Int)) ∧
    (s.quiescent = true →
      s.empty + s.full = (n : Int) ∧ (s.queue.length : Int) = s.full) := by
  obtain ⟨hE, hF, hM, hP, h2, h3, h4, h5, h6, h7, hW⟩ := sysInv_reach n p kinds s h
  have c1 := cPZ_nonneg pAE s.threads
  have c2 := cPZ_nonneg pPF s.threads
  have c4 := cPZ_nonneg wFT s.threads
  have c5 := cPZ_nonneg wER s.threads
  refine ⟨⟨by omega, by omega⟩, fun hq => ?_⟩
  obtain ⟨z1, z2, z3, z4, z5, z6⟩ := quiescent_counts s hq
  constructor <;> omega

/-- Witness for `queue_capacity_and_slot_conservation` at the initial
state of a capacity-2 system. -/
theorem queue_capacity_and_slot_conservation_witness :
    ((initSys 2 1 [ThreadKind.worker 1]).queue.length : Int) ≤ (2 : Int) :=
  ((queue_capacity_and_slot_conservation 2 1 [ThreadKind.worker 1] _ (Reach.refl _)).1).1

/-- C9: the queue's `mutex` member is created with exactly one permit,
its permit count never exceeds 1 (and never goes negative) in any
reachable state, and at every quiescent point it is exactly 1 — each
queue operation pairs one mutex acquire with one mutex release. -/
theorem mutex_binary_semaphore (n p : Nat) (kinds : List ThreadKind) (s : Sys)
    (h : Reach (initSys n p kinds) s) :
    (initSys n p kinds).mutex = 1 ∧ 0 ≤ s.mutex ∧ s.mutex ≤ 1 ∧
    (s.quiescent = true → s.mutex = 1) := by
  obtain ⟨hE, hF, hM, hP, h2, h3, h4, h5, h6, h7, hW⟩ := sysInv_reach n p kinds s h
  have c3 := cPZ_nonneg pMH s.threads
  have c6 := cPZ_nonneg wMH s.threads
  refine ⟨rfl, hM, by omega, fun hq => ?_⟩
  obtain ⟨z1, z2, z3, z4, z5, z6⟩ := quiescent_counts s hq
  omega

/-- Witness for `mutex_binary_semaphore` at the initial state. -/
theorem mutex_binary_semaphore_witness :
    (initSys 1 1 [ThreadKind.worker 1]).mutex ≤ 1 :=
  (mutex_binary_semaphore 1 1 [ThreadKind.worker 1] _ (Reach.refl _)).2.2.1

/-- C5 counterexample: a reachable execution in which the worker's
service step raises (is interrupted): the bay-pool acquire succeeded
once, but the catch handler ends the thread (pc 7) with no release —
`bayAcquires = 1`, `bayReleases = 0`, and the bay permit stays 0. -/
theorem pump_interrupt_skips_release_cex :
    runSteps cexInit pumpCexMoves = some pumpCexFinal ∧
    pumpCexFinal.bayAcquires = 1 ∧
    pumpCexFinal.bayReleases = 0 ∧
    pumpCexFinal.pumps = 0 ∧
    pumpCexFinal.threads.map Thread.pc = [0, 7] := by decide

/-- C5 amended: in every reachable state the number of completed
bay-pool acquires equals the completed releases plus the number of
workers currently holding a bay; a worker holds a bay exactly while in
service (pc 6) or after being interrupted during service (pc 7) — on
the normal path each iteration's acquire is matched by exactly one
release, but an interrupted service step abandons the bay. -/
theorem bay_release_balance (n p : Nat) (kinds : List ThreadKind) (s : Sys)
    (h : Reach (initSys n p kinds) s) :
    (s.bayAcquires : Int) = (s.bayReleases : Int) + cPZ Thread.holdsBay s.threads ∧
    (∀ t ∈ s.threads, t.isWorker = true → (t.holdsBay = true ↔ (t.pc = 6 ∨ t.pc = 7))) := by
  obtain ⟨hE, hF, hM, hP, h2, h3, h4, h5, h6, h7, hW⟩ := sysInv_reach n p kinds s h
  exact ⟨h6, fun t ht hw => (hW t ht).2 hw⟩

/-- Witness for `bay_release_balance` at the initial state. -/
theorem bay_release_balance_witness :
    ((initSys 1 1 [ThreadKind.worker 1]).bayAcquires : Int) =
      ((initSys 1 1 [ThreadKind.worker 1]).bayReleases : Int) +
        cPZ Thread.holdsBay (initSys 1 1 [ThreadKind.worker 1]).threads :=
  (bay_release_balance 1 1 [ThreadKind.worker 1] _ (Reach.refl _)).1

/-- Auxiliary: once arrivals are joined, all workers wait at
`full.acquire()` and the queue is empty, no thread has an enabled
step. -/
theorem drained_no_step (s : Sys)
    (hJ : arrivalsJoined s = true) (hWW : workersAllWaiting s = true)
    (hFull : s.full = 0) :
    ∀ i intr, stepThread s i intr = none := by
  intro i intr
  unfold stepThread
  cases hget : s.threads.get? i with
  | none => rfl
  | some t =>
    have hmem := List.get?_mem hget
    unfold arrivalsJoined at hJ
    unfold workersAllWaiting at hWW
    rw [List.all_eq_true] at hJ hWW
    have hj := hJ t hmem
    have hww := hWW t hmem
    obtain ⟨kind, pc, held, hb⟩ := t
    cases kind with
    | producer pending =>
      simp at hj
      obtain ⟨hp, hpc⟩ := hj
      subst hp
      subst hpc
      rfl
    | worker pid =>
      simp at hww
      subst hww
      unfold stepOf
      dsimp only
      rw [if_neg (by omega)]

/-- Auxiliary: from a stuck state nothing but the state itself is
reachable. -/
theorem reach_of_drained_eq (s s' : Sys)
    (hns : ∀ i intr, stepThread s i intr = none) (h : Reach s s') : s' = s := by
  induction h with
  | refl => rfl
  | tail hr hs ih =>
    obtain ⟨i, intr, hstep⟩ := hs
    rw [ih, hns i intr] at hstep
    cases hstep

/-- C6 amended: once the arrival threads are joined, if the favourable
sample (`waitingCount() = 0` and free bays = total bays) is taken in a
state where additionally every worker is blocked waiting for a client
(none holds a dequeued, not-yet-serviced client), then both conditions
remain true at every later point — indeed no further step is enabled.
Without that extra condition the sample is not monotonic (see the
counterexample). -/
theorem drain_conditions_persist (p : Nat) (s s' : Sys)
    (hJ : arrivalsJoined s = true) (hWW : workersAllWaiting s = true)
    (hFull : s.full = 0) (hPumps : s.pumps = (p : Int))
    (h : Reach s s') :
    s'.full = 0 ∧ s'.pumps = (p : Int) ∧ s' = s := by
  have heq := reach_of_drained_eq s s' (drained_no_step s hJ hWW hFull) h
  subst heq
  exact ⟨hFull, hPumps, rfl⟩

/-- Witness for `drain_conditions_persist` on a drained two-thread
system. -/
theorem drain_conditions_persist_witness :
    (initSys 0 1 [ThreadKind.producer [], ThreadKind.worker 1]).full = 0 :=
  (drain_conditions_persist 1 (initSys 0 1 [ThreadKind.producer [], ThreadKind.worker 1])
    (initSys 0 1 [ThreadKind.producer [], ThreadKind.worker 1])
    (by decide) (by decide) (by decide) (by decide) (Reach.refl _)).1

/-- C6 counterexample: with one arrival joined and a single worker, the
worker can sit between `removeCar` returning and `pumps.acquire()`
(pc 5): the monitor's sample then sees `full = 0` and all bays free,
yet the very next step drops the bay count — the two conditions do not
remain true at every later point, and the dequeued car is not yet
serviced when the sample is taken. -/
theorem drain_sample_not_monotonic_cex :
    runSteps cexInit drainCexMoves = some drainCexSample ∧
    arrivalsJoined drainCexSample = true ∧
    drainCexSample.full = 0 ∧
    drainCexSample.pumps = 1 ∧
    drainCexSample.threads.map Thread.pc = [0, 5] ∧
    stepThread drainCexSample 1 false = some drainCexNext ∧
    drainCexNext.pumps = 0 := by decide

/-- Auxiliary: preservation of the single-producer single-worker push
accounting by one micro-step. -/
theorem invFifo_preserved (cars : List Car) (s s' : Sys) (i : Nat) (intr : Bool)
    (hf : InvFifo cars s) (h : stepThread s i intr = some s') : InvFifo cars s' := by
  unfold InvFifo at hf ⊢
  unfold stepThread at h
  cases hts : s.threads with
  | nil =>
    rw [hts] at hf
    exact hf.elim
  | cons tp rest =>
    cases rest with
    | nil =>
      rw [hts] at hf
      exact hf.elim
    | cons tw rest2 =>
      cases rest2 with
      | cons u us =>
        rw [hts] at hf
        exact hf.elim
      | nil =>
        rw [hts] at hf h
        dsimp only at hf
        obtain ⟨hp, hw, hpush⟩ := hf
        cases i with
        | zero =>
          rw [List.get?_cons_zero] at h
          obtain ⟨kindp, pcp, heldp, hbp⟩ := tp
          cases kindp with
          | worker pid => simp [Thread.isProducer] at hp
          | producer pending =>
            unfold stepOf at h
            dsimp only at h
            split at h
            · -- pc 0: stage next car
              injection h with h
              subst h
              rw [hts]
              refine ⟨rfl, hw, ?_⟩
              simp only [List.set_cons_zero]
              simp only [prodOutstanding, pcStaged] at hpush ⊢
              simpa using hpush
            · -- pc 1
              split at h
              · injection h with h
                subst h
                rw [hts]
                refine ⟨rfl, hw, ?_⟩
                simp only [List.set_cons_zero]
                simp only [prodOutstanding, pcStaged] at hpush ⊢
                simpa using hpush
              · cases h
            · -- pc 2
              split at h
              · injection h with h
                subst h
                rw [hts]
                refine ⟨rfl, hw, ?_⟩
                simp only [List.set_cons_zero]
                simp only [prodOutstanding, pcStaged] at hpush ⊢
                simpa using hpush
              · cases h
            · -- pc 3: push
              split at h
              · rename_i c hheld
                injection h with h
                subst h
                rw [hts]
                refine ⟨rfl, hw, ?_⟩
                simp only [List.set_cons_zero]
                simp only [prodOutstanding, pcStaged] at hpush ⊢
                simp only [List.append_assoc]
                simpa using hpush
              · cases h
            · -- pc 4
              injection h with h
              subst h
              rw [hts]
              refine ⟨rfl, hw, ?_⟩
              simp only [List.set_cons_zero]
              simp only [prodOutstanding, pcStaged] at hpush ⊢
              simpa using hpush
            · -- pc 5
              injection h with h
              subst h
              rw [hts]
              refine ⟨rfl, hw, ?_⟩
              simp only [List.set_cons_zero]
              simp only [prodOutstanding, pcStaged] at hpush ⊢
              simpa using hpush
            · cases h
        | succ i1 =>
          cases i1 with
          | succ i2 =>
            rw [List.get?_cons_succ, List.get?_cons_succ, List.get?_nil] at h
            cases h
          | zero =>
            rw [List.get?_cons_succ, List.get?_cons_zero] at h
            obtain ⟨kindw, pcw, heldw, hbw⟩ := tw
            cases kindw with
            | producer pending => simp [Thread.isWorker] at hw
            | worker pid =>
              unfold stepOf at h
              dsimp only at h
              split at h
              · -- pc 0
                split at h
                · injection h with h
                  subst h
                  rw [hts]
                  exact ⟨hp, rfl, by simpa using hpush⟩
                · cases h
              · -- pc 1
                split at h
                · injection h with h
                  subst h
                  rw [hts]
                  exact ⟨hp, rfl, by simpa using hpush⟩
                · cases h
              · -- pc 2: pop
                split at h
                · cases h
                · injection h with h
                  subst h
                  rw [hts]
                  exact ⟨hp, rfl, by simpa using hpush⟩
              · -- pc 3
                injection h with h
                subst h
                rw [hts]
                exact ⟨hp, rfl, by simpa using hpush⟩
              · -- pc 4
                injection h with h
                subst h
                rw [hts]
                exact ⟨hp, rfl, by simpa using hpush⟩
              · -- pc 5
                split at h
                · injection h with h
                  subst h
                  rw [hts]
                  exact ⟨hp, rfl, by simpa using hpush⟩
                · cases h
              · -- pc 6
                split at h
                · injection h with h
                  subst h
                  rw [hts]
                  exact ⟨hp, rfl, by simpa using hpush⟩
                · injection h with h
                  subst h
                  rw [hts]
                  exact ⟨hp, rfl, by simpa using hpush⟩
              · cases h

/-- Auxiliary: the push accounting holds along every execution of the
single-producer single-worker system. -/
theorem invFifo_reach (n p : Nat) (cars : List Car) (pid : Int) (s : Sys)
    (h : Reach (initSys n p [ThreadKind.producer cars, ThreadKind.worker pid]) s) :
    InvFifo cars s := by
  induction h with
  | refl =>
    unfold InvFifo initSys
    dsimp only [List.map]
    exact ⟨rfl, rfl, by simp [prodOutstanding, pcStaged, initThread]⟩
  | tail hr hs ih =>
    obtain ⟨i, intr, hstep⟩ := hs
    exact invFifo_preserved cars _ _ i intr ih hstep

/-- C2: in the single-producer single-worker system, the sequence of
dequeued cars followed by the current FIFO contents is exactly the
sequence of enqueued cars, every enqueued prefix follows the arrival
list order, the dequeue history is a prefix of the arrival list (FIFO
order), and whenever the worker is at the pop step the FIFO is
non-empty, so `removeCar` always returns the actual front item, never a
placeholder. -/
theorem fifo_order_single_producer_consumer (n p : Nat) (cars : List Car) (pid : Int)
    (s : Sys)
    (h : Reach (initSys n p [ThreadKind.producer cars, ThreadKind.worker pid]) s) :
    s.popped ++ s.queue = s.pushed ∧
    (∃ rest, s.pushed ++ rest = cars) ∧
    (∃ rest, s.popped ++ rest = cars) ∧
    (∀ t ∈ s.threads, t.isWorker = true → t.pc = 2 → s.queue ≠ []) := by
  obtain ⟨hE, hF, hM, hP, h2, h3, h4, h5, h6, h7, hW⟩ := sysInv_reach n p _ s h
  have hfifo := invFifo_reach n p cars pid s h
  unfold InvFifo at hfifo
  refine ⟨h7, ?_, ?_, ?_⟩
  · cases hts : s.threads with
    | nil => rw [hts] at hfifo; exact hfifo.elim
    | cons tp rest =>
      cases rest with
      | nil => rw [hts] at hfifo; exact hfifo.elim
      | cons tw rest2 =>
        cases rest2 with
        | cons u us => rw [hts] at hfifo; exact hfifo.elim
        | nil =>
          rw [hts] at hfifo
          exact ⟨prodOutstanding tp, hfifo.2.2⟩
  · cases hts : s.threads with
    | nil => rw [hts] at hfifo; exact hfifo.elim
    | cons tp rest =>
      cases rest with
      | nil => rw [hts] at hfifo; exact hfifo.elim
      | cons tw rest2 =>
        cases rest2 with
        | cons u us => rw [hts] at hfifo; exact hfifo.elim
        | nil =>
          rw [hts] at hfifo
          refine ⟨s.queue ++ prodOutstanding tp, ?_⟩
          rw [← List.append_assoc, h7]
          exact hfifo.2.2
  · intro t ht hw hpc
    have hwft : wFT t = true := by simp [wFT, hw, hpc]
    have hpos := cPZ_pos wFT s.threads t ht hwft
    have c2 := cPZ_nonneg pPF s.threads
    intro hnil
    rw [hnil] at h3
    simp at h3
    omega

/-- Witness for `fifo_order_single_producer_consumer` at the sampled
state of the concrete schedule. -/
theorem fifo_order_single_producer_consumer_witness :
    drainCexSample.popped ++ drainCexSample.queue = drainCexSample.pushed :=
  (fifo_order_single_producer_consumer 1 1 [{ carName := "Car 1", carId := 1 }] 1
    drainCexSample
    (runSteps_reach drainCexMoves cexInit drainCexSample (by decide))).1

/-- Witness for `sharedQueue_construction_validation`: size 5 passes the
prompt loop. -/
theorem sharedQueue_construction_validation_witness :
    mainAcceptsQueueSize 5 = true :=
  (sharedQueue_construction_validation 5).2.2.mpr (by norm_num)

/-- Witness for `observers_are_pure` on a concrete semaphore. -/
theorem observers_are_pure_witness :
    (Semaphore.mk 3).availablePermits.1 = 3 :=
  (observers_are_pure (Semaphore.mk 3) c3q0).2.1
